import Mathlib

/-!
Shallow embedding of the two source files of this repository:
`src/js/iterateCharactersFromFile.js` (a chunked UTF-8 byte-to-character
decoder) and `src/js/csvParser.js` (an RFC4180-style CSV parser).

Bytes are modelled as `Nat` (file bytes are 0–255), byte buffers and chunks
as `List Nat`, emitted characters as `List Nat` (their byte sequences), and
the decoded text consumed by the CSV parser as `List Char`.
-/

/-- Embedding of `charBytes` (iterateCharactersFromFile.js, lines 86–100):
the byte length of the UTF-8 character whose leading byte is `head`. -/
def charBytes (head : Nat) : Nat :=
  if 240 ≤ head then 4
  else if 224 ≤ head then 3
  else if 192 ≤ head then 2
  else 1

/-- Embedding of the forward scan of one chunk (iterateCharactersFromFile.js,
lines 38–59) starting with an empty fragment: at each position the leading
byte `b` determines `n = charBytes b`; if `n` bytes are available they are
emitted as one character (`start + n ≤ chunkSize`, `chunk.slice(start, start+n)`),
otherwise the remaining bytes become the carry-over fragment
(`start + n > chunkSize`, `chunk.slice(start, chunkSize)`).  Returns the
emitted characters and the trailing fragment.  The JS bounds check
`start + n > chunkSize` is rendered by matching on the available list shape
for each possible value of `charBytes b`. -/
def scanChunk : List Nat → List (List Nat) × List Nat
  | [] => ([], [])
  | b :: rest =>
    match charBytes b, rest with
    | 2, c1 :: r => ([b, c1] :: (scanChunk r).1, (scanChunk r).2)
    | 3, c1 :: c2 :: r => ([b, c1, c2] :: (scanChunk r).1, (scanChunk r).2)
    | 4, c1 :: c2 :: c3 :: r => ([b, c1, c2, c3] :: (scanChunk r).1, (scanChunk r).2)
    | 1, r => ([b] :: (scanChunk r).1, (scanChunk r).2)
    | _, _ => ([], b :: rest)

/-- Embedding of one iteration of the outer `for await` chunk loop of
`iterateCharactersFromFile` (lines 4–60): first the pending-fragment block
(lines 11–36: if a fragment is pending, either the whole chunk is still
insufficient — `start + remainSize > chunkSize` — and is appended to the
fragment, or the fragment is completed with `chunk.slice(start, remainSize)`,
emitted, and cleared), then the forward scan of the remainder of the chunk.
Returns the characters emitted for this chunk and the fragment carried to
the next chunk. -/
def processChunk (fragment chunk : List Nat) : List (List Nat) × List Nat :=
  match fragment, chunk with
  | [], _ => scanChunk chunk
  | _, [] => ([], fragment)
  | f0 :: _, _ :: _ =>
    let n := charBytes f0
    let remainSize := n - fragment.length
    if chunk.length < remainSize then ([], fragment ++ chunk)
    else
      ((fragment ++ chunk.take remainSize) :: (scanChunk (chunk.drop remainSize)).1,
       (scanChunk (chunk.drop remainSize)).2)

/-- Embedding of the whole chunk loop of `iterateCharactersFromFile`:
process each chunk in order, threading the fragment.  A fragment left over
after the last chunk is dropped (the source only logs a diagnostic,
lines 62–64). -/
def iterCharsAux : List Nat → List (List Nat) → List (List Nat)
  | _, [] => []
  | fragment, chunk :: rest =>
    (processChunk fragment chunk).1 ++ iterCharsAux (processChunk fragment chunk).2 rest

/-- Embedding of `iterateCharactersFromFile` (lines 2–65): the ordered
sequence of characters emitted for the given chunk sequence, starting from
an empty fragment. -/
def iterateCharactersFromFile (chunks : List (List Nat)) : List (List Nat) :=
  iterCharsAux [] chunks

/-- A UTF-8 continuation byte: high bits `10xxxxxx`. -/
def isContByte (b : Nat) : Bool := 128 ≤ b && b < 192

/-- Helper for `wfUtf8`: `k` is the number of continuation bytes still
expected for the character currently being read. -/
def wfUtf8Aux : Nat → List Nat → Bool
  | 0, [] => true
  | _ + 1, [] => false
  | 0, b :: rest =>
    if b < 128 then wfUtf8Aux 0 rest
    else if 192 ≤ b ∧ b < 224 then wfUtf8Aux 1 rest
    else if 224 ≤ b ∧ b < 240 then wfUtf8Aux 2 rest
    else if 240 ≤ b ∧ b < 256 then wfUtf8Aux 3 rest
    else false
  | k + 1, b :: rest => isContByte b && wfUtf8Aux k rest

/-- Well-formed (and complete) UTF-8 byte buffer, following the leading-byte
classification used by `charBytes`: a 1-byte character is `0xxxxxxx`, a
2/3/4-byte leading byte lies in [192,224)/[224,240)/[240,256) and is
followed by exactly 1/2/3 continuation bytes. -/
def wfUtf8 (buf : List Nat) : Bool := wfUtf8Aux 0 buf

/-- The sequence of fragment states observed at chunk boundaries while
decoding `chunks` from initial fragment `fragment`: the fragment pending
before each chunk is processed, and the fragment left after the last chunk. -/
def fragStates : List Nat → List (List Nat) → List (List Nat)
  | fragment, [] => [fragment]
  | fragment, chunk :: rest => fragment :: fragStates (processChunk fragment chunk).2 rest

/-- The parser states of `parseCSV` (csvParser.js, lines 34–43). -/
inductive PState where
  | START_FIELD
  | IN_FIELD
  | IN_QUOTED
  | AFTER_QUOTE
deriving DecidableEq

/-- Embedding of `isControl` (csvParser.js, lines 47–50): C0 control
characters and DEL.  The lower bound `0x00 ≤ code` of the source holds
trivially for `Nat`. -/
def isControl (ch : Char) : Bool :=
  (ch.toNat ≤ 0x1F) || (ch.toNat == 0x7F)

/-- Embedding of the scanning loop and EOF handling of `parseCSV`
(csvParser.js, lines 63–244).  The fixed parameters are the options; the
varying arguments are the state, the accumulated `rows`, the current `row`,
the current `field`, and the remaining input.  The JS one-character
lookahead `hasCRLF` (`ch === CR && next === LF`, line 73) is rendered as a
dedicated pattern `CR :: LF :: rest2` placed before the general
single-character case; this preserves the source's branch order because the
`hasCRLF` branch can only fire when `ch` is CR, and CR fails every test
that precedes the `hasCRLF` test in the source (quote and comma).  Its
branch advances by two characters (`i += 2`).  Errors are the
`SyntaxError` messages thrown by the source. -/
def csvLoop (strict allowBareLF allowBareCR : Bool) :
    PState → List (List String) → List String → String → List Char →
    Except String (List (List String))
  | .IN_QUOTED, rows, row, field, [] =>
    if strict then .error "Unterminated quoted field"
    else .ok (rows ++ [row ++ [field]])
  | _, rows, row, field, [] =>
    if field ≠ "" ∨ 0 < row.length then .ok (rows ++ [row ++ [field]])
    else .ok rows
  | .START_FIELD, rows, row, field, '\r' :: '\n' :: rest2 =>
    csvLoop strict allowBareLF allowBareCR .START_FIELD (rows ++ [row ++ [field]]) [] "" rest2
  | .START_FIELD, rows, row, field, ch :: rest =>
    if ch == '"' then
      csvLoop strict allowBareLF allowBareCR .IN_QUOTED rows row field rest
    else if ch == ',' then
      csvLoop strict allowBareLF allowBareCR .START_FIELD rows (row ++ [field]) "" rest
    else if (ch == '\n' && allowBareLF) || (ch == '\r' && allowBareCR) then
      csvLoop strict allowBareLF allowBareCR .START_FIELD (rows ++ [row ++ [field]]) [] "" rest
    else if ch == '\r' || ch == '\n' then
      if strict then .error "Bare newline is not allowed (use CRLF)"
      else csvLoop strict allowBareLF allowBareCR .START_FIELD (rows ++ [row ++ [field]]) [] "" rest
    else if ch == '"' && strict then .error "Unexpected quote in unquoted field"
    else if strict && (isControl ch && ch != '\t') then
      .error "Control char not allowed in unquoted field"
    else csvLoop strict allowBareLF allowBareCR .IN_FIELD rows row (field.push ch) rest
  | .IN_FIELD, rows, row, field, '\r' :: '\n' :: rest2 =>
    csvLoop strict allowBareLF allowBareCR .START_FIELD (rows ++ [row ++ [field]]) [] "" rest2
  | .IN_FIELD, rows, row, field, ch :: rest =>
    if ch == ',' then
      csvLoop strict allowBareLF allowBareCR .START_FIELD rows (row ++ [field]) "" rest
    else if (ch == '\n' && allowBareLF) || (ch == '\r' && allowBareCR) then
      csvLoop strict allowBareLF allowBareCR .START_FIELD (rows ++ [row ++ [field]]) [] "" rest
    else if ch == '"' && strict then .error "Quote inside unquoted field"
    else if strict && (ch == '\r' || ch == '\n' || ch == '"') then
      .error "Illegal character in unquoted field"
    else if strict && (isControl ch && ch != '\t') then
      .error "Control char not allowed in unquoted field"
    else csvLoop strict allowBareLF allowBareCR .IN_FIELD rows row (field.push ch) rest
  | .IN_QUOTED, rows, row, field, ch :: rest =>
    if ch == '"' then
      csvLoop strict allowBareLF allowBareCR .AFTER_QUOTE rows row field rest
    else
      csvLoop strict allowBareLF allowBareCR .IN_QUOTED rows row (field.push ch) rest
  | .AFTER_QUOTE, rows, row, field, '\r' :: '\n' :: rest2 =>
    csvLoop strict allowBareLF allowBareCR .START_FIELD (rows ++ [row ++ [field]]) [] "" rest2
  | .AFTER_QUOTE, rows, row, field, ch :: rest =>
    if ch == '"' then
      csvLoop strict allowBareLF allowBareCR .IN_QUOTED rows row (field.push '"') rest
    else if ch == ',' then
      csvLoop strict allowBareLF allowBareCR .START_FIELD rows (row ++ [field]) "" rest
    else if (ch == '\n' && allowBareLF) || (ch == '\r' && allowBareCR) then
      csvLoop strict allowBareLF allowBareCR .START_FIELD (rows ++ [row ++ [field]]) [] "" rest
    else if strict then .error "Invalid character after closing quote"
    else csvLoop strict allowBareLF allowBareCR .IN_FIELD rows row (field.push ch) rest

deriving instance DecidableEq for Except

/-- Embedding of `parseCSV` (csvParser.js, lines 20–247): parse the decoded
input text with the given options, starting in `START_FIELD` with empty
accumulators. -/
def parseCSV (input : List Char) (strict allowBareLF allowBareCR : Bool) :
    Except String (List (List String)) :=
  csvLoop strict allowBareLF allowBareCR .START_FIELD [] [] "" input

/-! Decoder lemmas. -/

lemma charBytes_cases (b : Nat) :
    charBytes b = 1 ∨ charBytes b = 2 ∨ charBytes b = 3 ∨ charBytes b = 4 := by
  unfold charBytes
  repeat' split
  all_goals simp

lemma charBytes_pos (b : Nat) : 1 ≤ charBytes b := by
  rcases charBytes_cases b with h | h | h | h <;> omega

/-- Uniform description of `scanChunk` on a nonempty chunk, matching the JS
loop body: if fewer than `charBytes b` bytes are available the whole
remainder becomes the fragment, otherwise the first `charBytes b` bytes are
emitted and scanning continues after them. -/
lemma scanChunk_eq (b : Nat) (rest : List Nat) :
    scanChunk (b :: rest) =
      if rest.length + 1 < charBytes b then ([], b :: rest)
      else ((b :: rest).take (charBytes b) :: (scanChunk ((b :: rest).drop (charBytes b))).1,
            (scanChunk ((b :: rest).drop (charBytes b))).2) := by
  rcases charBytes_cases b with h | h | h | h <;>
    rcases rest with _ | ⟨c1, _ | ⟨c2, _ | ⟨c3, r⟩⟩⟩ <;>
    simp [scanChunk, h] <;>
    rw [if_neg (by omega)]

/-- The decoder's fragment invariant: a nonempty pending fragment is a
strict prefix of the character declared by its own first byte. -/
def validFrag (f : List Nat) : Prop := f ≠ [] → f.length < charBytes f.headI

lemma validFrag_nil : validFrag [] := fun h => absurd rfl h

lemma scanChunk_snd_valid (c : List Nat) : validFrag (scanChunk c).2 := by
  suffices H : ∀ (n : Nat) (c : List Nat), c.length ≤ n → validFrag (scanChunk c).2 from
    H c.length c le_rfl
  intro n
  induction n with
  | zero =>
    intro c hc
    have : c = [] := List.eq_nil_of_length_eq_zero (Nat.le_zero.mp hc)
    subst this
    exact validFrag_nil
  | succ n ih =>
    intro c hc
    cases c with
    | nil => exact validFrag_nil
    | cons b rest =>
      rw [scanChunk_eq]
      split
      · rename_i hg
        intro _
        simpa using hg
      · rename_i hg
        apply ih
        have := charBytes_pos b
        simp at hc ⊢
        omega

/-- Processing a chunk against a valid pending fragment is the same as
scanning the fragment's bytes prepended to the chunk. -/
lemma processChunk_eq_scanChunk (f c : List Nat) (hf : validFrag f) :
    processChunk f c = scanChunk (f ++ c) := by
  match f, c with
  | [], c => simp [processChunk]
  | f0 :: ft, [] =>
    have hlen : ft.length + 1 < charBytes f0 := by simpa using hf (by simp)
    simp only [processChunk, List.append_nil]
    rw [scanChunk_eq, if_pos hlen]
  | f0 :: ft, c0 :: ct =>
    have hlen : ft.length + 1 < charBytes f0 := by simpa using hf (by simp)
    rw [show ((f0 :: ft) ++ c0 :: ct) = f0 :: (ft ++ c0 :: ct) from rfl, scanChunk_eq]
    simp only [processChunk]
    by_cases hc : (c0 :: ct).length < charBytes f0 - (f0 :: ft).length
    · rw [if_pos hc, if_pos (by simp at hc ⊢; omega)]
      simp
    · rw [if_neg hc, if_neg (by simp at hc ⊢; omega)]
      have h1 : (f0 :: ft).length ≤ charBytes f0 := by simp; omega
      rw [show (f0 :: (ft ++ c0 :: ct)) = (f0 :: ft) ++ (c0 :: ct) from rfl,
          List.take_append_eq_append_take, List.drop_append_eq_append_drop,
          List.take_of_length_le h1, List.drop_eq_nil_of_le h1]
      simp

/-- Scanning a concatenation decomposes: scan the first part, then scan its
trailing fragment prepended to the second part. -/
lemma scanChunk_append (a b : List Nat) :
    scanChunk (a ++ b) =
      ((scanChunk a).1 ++ (scanChunk ((scanChunk a).2 ++ b)).1,
       (scanChunk ((scanChunk a).2 ++ b)).2) := by
  suffices H : ∀ (n : Nat) (a : List Nat), a.length ≤ n → ∀ b : List Nat,
      scanChunk (a ++ b) =
        ((scanChunk a).1 ++ (scanChunk ((scanChunk a).2 ++ b)).1,
         (scanChunk ((scanChunk a).2 ++ b)).2) from H a.length a le_rfl b
  intro n
  induction n with
  | zero =>
    intro a ha b
    have : a = [] := List.eq_nil_of_length_eq_zero (Nat.le_zero.mp ha)
    subst this
    simp [scanChunk]
  | succ n ih =>
    intro a ha b
    cases a with
    | nil => simp [scanChunk]
    | cons a0 t =>
      by_cases hg : t.length + 1 < charBytes a0
      · rw [scanChunk_eq a0 t, if_pos hg]
        simp
      · rw [scanChunk_eq a0 t, if_neg hg,
            show ((a0 :: t) ++ b) = a0 :: (t ++ b) from rfl, scanChunk_eq a0 (t ++ b),
            if_neg (by simp at hg ⊢; omega)]
        have h2 : charBytes a0 - (a0 :: t).length = 0 := by simp at hg ⊢; omega
        rw [show (a0 :: (t ++ b)) = (a0 :: t) ++ b from rfl,
            List.take_append_eq_append_take, List.drop_append_eq_append_drop]
        simp only [h2, List.take_zero, List.drop_zero, List.append_nil]
        rw [ih ((a0 :: t).drop (charBytes a0))
            (by have := charBytes_pos a0; simp at ha ⊢; omega) b]
        simp

/-- Chunked decoding from any valid pending fragment equals a single scan of
the fragment followed by the concatenation of all chunks. -/
lemma iterCharsAux_eq (chunks : List (List Nat)) :
    ∀ f, validFrag f → iterCharsAux f chunks = (scanChunk (f ++ chunks.flatten)).1 := by
  induction chunks with
  | nil =>
    intro f hf
    cases f with
    | nil => simp [iterCharsAux, scanChunk]
    | cons f0 ft =>
      have hlen : ft.length + 1 < charBytes f0 := by simpa using hf (by simp)
      simp only [iterCharsAux, List.flatten_nil, List.append_nil]
      rw [scanChunk_eq, if_pos hlen]
  | cons c rest ih =>
    intro f hf
    simp only [iterCharsAux]
    rw [processChunk_eq_scanChunk f c hf, ih _ (scanChunk_snd_valid (f ++ c))]
    simp only [List.flatten_cons]
    rw [show f ++ (c ++ rest.flatten) = (f ++ c) ++ rest.flatten by simp,
        scanChunk_append (f ++ c) rest.flatten]

/-- C1: for every well-formed UTF-8 byte buffer and every partition of that
buffer into chunks of arbitrary positive sizes, decoding the chunked
sequence with `iterateCharactersFromFile` yields exactly the same ordered
sequence of characters as decoding the whole buffer as one single chunk. -/
theorem C1_boundary_invariance (buf : List Nat) (chunks : List (List Nat))
    (hwf : wfUtf8 buf = true) (hpos : ∀ c ∈ chunks, c ≠ [])
    (hjoin : chunks.flatten = buf) :
    iterateCharactersFromFile chunks = iterateCharactersFromFile [buf] := by
  unfold iterateCharactersFromFile
  rw [iterCharsAux_eq chunks [] validFrag_nil, iterCharsAux_eq [buf] [] validFrag_nil]
  simp [hjoin]

/-- Witness for C1 at a concrete input: the 3-byte character U+3042 split
across two chunks decodes like the unsplit buffer. -/
theorem C1_boundary_invariance_witness :
    iterateCharactersFromFile [[227], [129, 130]] =
      iterateCharactersFromFile [[227, 129, 130]] :=
  C1_boundary_invariance [227, 129, 130] [[227], [129, 130]]
    (by decide) (by decide) (by decide)

lemma charBytes_eq_one {b : Nat} (h : b < 192) : charBytes b = 1 := by
  unfold charBytes
  rw [if_neg (by omega), if_neg (by omega), if_neg (by omega)]

lemma charBytes_eq_two {b : Nat} (h1 : 192 ≤ b) (h2 : b < 224) : charBytes b = 2 := by
  unfold charBytes
  rw [if_neg (by omega), if_neg (by omega), if_pos (by omega)]

lemma charBytes_eq_three {b : Nat} (h1 : 224 ≤ b) (h2 : b < 240) : charBytes b = 3 := by
  unfold charBytes
  rw [if_neg (by omega), if_pos (by omega)]

lemma charBytes_eq_four {b : Nat} (h1 : 240 ≤ b) : charBytes b = 4 := by
  unfold charBytes
  rw [if_pos (by omega)]

/-- For a well-formed complete buffer the scan leaves no fragment, every
emitted character is nonempty with byte length equal to `charBytes` of its
own first byte, and the emitted characters concatenate back to the buffer. -/
lemma scanChunk_wf (buf : List Nat) (hwf : wfUtf8 buf = true) :
    (scanChunk buf).2 = [] ∧
    (∀ ch ∈ (scanChunk buf).1, ch ≠ [] ∧ ch.length = charBytes ch.headI) ∧
    (scanChunk buf).1.flatten = buf := by
  suffices H : ∀ (n : Nat) (buf : List Nat), buf.length ≤ n → wfUtf8 buf = true →
      (scanChunk buf).2 = [] ∧
      (∀ ch ∈ (scanChunk buf).1, ch ≠ [] ∧ ch.length = charBytes ch.headI) ∧
      (scanChunk buf).1.flatten = buf from H buf.length buf le_rfl hwf
  intro n
  induction n with
  | zero =>
    intro buf hl _
    have : buf = [] := List.eq_nil_of_length_eq_zero (Nat.le_zero.mp hl)
    subst this
    simp [scanChunk]
  | succ n ih =>
    intro buf hl hwf
    cases buf with
    | nil => simp [scanChunk]
    | cons b rest =>
      simp only [wfUtf8, wfUtf8Aux] at hwf
      by_cases hb1 : b < 128
      · rw [if_pos hb1] at hwf
        have hcb : charBytes b = 1 := charBytes_eq_one (by omega)
        rw [scanChunk_eq, hcb, if_neg (by omega)]
        simp only [List.take_succ_cons, List.take_zero, List.drop_succ_cons, List.drop_zero]
        obtain ⟨ih1, ih2, ih3⟩ := ih rest (by simp at hl ⊢; omega) hwf
        refine ⟨ih1, ?_, by simpa using ih3⟩
        intro ch hch
        rcases List.mem_cons.mp hch with hch | hch
        · subst hch
          exact ⟨by simp, by simp [hcb]⟩
        · exact ih2 ch hch
      · rw [if_neg hb1] at hwf
        by_cases hb2 : 192 ≤ b ∧ b < 224
        · rw [if_pos hb2] at hwf
          cases rest with
          | nil => simp [wfUtf8Aux] at hwf
          | cons c1 r =>
            simp only [wfUtf8Aux, Bool.and_eq_true] at hwf
            have hcb : charBytes b = 2 := charBytes_eq_two hb2.1 hb2.2
            rw [scanChunk_eq, hcb, if_neg (by simp)]
            simp only [List.take_succ_cons, List.take_zero, List.drop_succ_cons,
              List.drop_zero]
            obtain ⟨ih1, ih2, ih3⟩ := ih r (by simp at hl ⊢; omega) hwf.2
            refine ⟨ih1, ?_, by simpa using ih3⟩
            intro ch hch
            rcases List.mem_cons.mp hch with hch | hch
            · subst hch
              exact ⟨by simp, by simp [hcb]⟩
            · exact ih2 ch hch
        · rw [if_neg hb2] at hwf
          by_cases hb3 : 224 ≤ b ∧ b < 240
          · rw [if_pos hb3] at hwf
            match rest with
            | [] => simp [wfUtf8Aux] at hwf
            | [c1] => simp [wfUtf8Aux] at hwf
            | c1 :: c2 :: r =>
              simp only [wfUtf8Aux, Bool.and_eq_true] at hwf
              have hcb : charBytes b = 3 := charBytes_eq_three hb3.1 hb3.2
              rw [scanChunk_eq, hcb, if_neg (by simp)]
              simp only [List.take_succ_cons, List.take_zero, List.drop_succ_cons,
                List.drop_zero]
              obtain ⟨ih1, ih2, ih3⟩ := ih r (by simp at hl ⊢; omega) hwf.2.2
              refine ⟨ih1, ?_, by simpa using ih3⟩
              intro ch hch
              rcases List.mem_cons.mp hch with hch | hch
              · subst hch
                exact ⟨by simp, by simp [hcb]⟩
              · exact ih2 ch hch
          · rw [if_neg hb3] at hwf
            by_cases hb4 : 240 ≤ b ∧ b < 256
            · rw [if_pos hb4] at hwf
              match rest with
              | [] => simp [wfUtf8Aux] at hwf
              | [c1] => simp [wfUtf8Aux] at hwf
              | [c1, c2] => simp [wfUtf8Aux] at hwf
              | c1 :: c2 :: c3 :: r =>
                simp only [wfUtf8Aux, Bool.and_eq_true] at hwf
                have hcb : charBytes b = 4 := charBytes_eq_four hb4.1
                rw [scanChunk_eq, hcb, if_neg (by simp)]
                simp only [List.take_succ_cons, List.take_zero, List.drop_succ_cons,
                  List.drop_zero]
                obtain ⟨ih1, ih2, ih3⟩ := ih r (by simp at hl ⊢; omega) hwf.2.2.2
                refine ⟨ih1, ?_, by simpa using ih3⟩
                intro ch hch
                rcases List.mem_cons.mp hch with hch | hch
                · subst hch
                  exact ⟨by simp, by simp [hcb]⟩
                · exact ih2 ch hch
            · rw [if_neg hb4] at hwf
              simp at hwf

/-- C4: for every well-formed and complete UTF-8 byte buffer, every
character emitted by the decoder is nonempty with byte length equal to
`charBytes` applied to that character's own first byte, and the
concatenation of all emitted characters, in emission order, equals the
original byte buffer exactly. -/
theorem C4_no_split_emission (buf : List Nat) (hwf : wfUtf8 buf = true) :
    (∀ ch ∈ iterateCharactersFromFile [buf], ch ≠ [] ∧ ch.length = charBytes ch.headI) ∧
    (iterateCharactersFromFile [buf]).flatten = buf := by
  have h := scanChunk_wf buf hwf
  have hrw : iterateCharactersFromFile [buf] = (scanChunk buf).1 := by
    unfold iterateCharactersFromFile
    rw [iterCharsAux_eq [buf] [] validFrag_nil]
    simp
  rw [hrw]
  exact ⟨h.2.1, h.2.2⟩

/-- Witness for C4 at a concrete buffer: ASCII `a`, then U+3042, then a
4-byte character. -/
theorem C4_no_split_emission_witness :
    (∀ ch ∈ iterateCharactersFromFile [[97, 227, 129, 130, 240, 144, 128, 128]],
      ch ≠ [] ∧ ch.length = charBytes ch.headI) ∧
    (iterateCharactersFromFile [[97, 227, 129, 130, 240, 144, 128, 128]]).flatten =
      [97, 227, 129, 130, 240, 144, 128, 128] :=
  C4_no_split_emission [97, 227, 129, 130, 240, 144, 128, 128] (by decide)

lemma processChunk_snd_valid (f c : List Nat) (hf : validFrag f) :
    validFrag (processChunk f c).2 := by
  rw [processChunk_eq_scanChunk f c hf]
  exact scanChunk_snd_valid (f ++ c)

lemma fragStates_valid (chunks : List (List Nat)) :
    ∀ f, validFrag f → ∀ g ∈ fragStates f chunks, validFrag g := by
  induction chunks with
  | nil =>
    intro f hf g hg
    simp only [fragStates, List.mem_singleton] at hg
    subst hg
    exact hf
  | cons c rest ih =>
    intro f hf g hg
    simp only [fragStates, List.mem_cons] at hg
    rcases hg with hg | hg
    · subst hg
      exact hf
    · exact ih _ (processChunk_snd_valid f c hf) g hg

/-- C9: throughout decoding, every fragment pending at a chunk boundary
satisfies `0 < len(fragment) < charBytes fragment[0]` whenever it is
nonempty, and the moment the pending character is completed by the next
chunk it is emitted in full and the fragment is reset to empty — the rest
of the chunk is decoded exactly as if no fragment had been pending. -/
theorem C9_fragment_invariant :
    (∀ chunks : List (List Nat), ∀ f ∈ fragStates [] chunks,
      f ≠ [] → 0 < f.length ∧ f.length < charBytes f.headI) ∧
    (∀ (f chunk : List Nat), f ≠ [] → f.length < charBytes f.headI →
      charBytes f.headI - f.length ≤ chunk.length → chunk ≠ [] →
      processChunk f chunk =
        ((f ++ chunk.take (charBytes f.headI - f.length)) ::
            (processChunk [] (chunk.drop (charBytes f.headI - f.length))).1,
         (processChunk [] (chunk.drop (charBytes f.headI - f.length))).2)) := by
  constructor
  · intro chunks f hf hne
    exact ⟨List.length_pos.mpr hne, fragStates_valid chunks [] validFrag_nil f hf hne⟩
  · intro f chunk hne hlt hle hcne
    match f, chunk with
    | f0 :: ft, c0 :: ct =>
      simp only [List.headI, List.length_cons] at hlt hle ⊢
      simp only [processChunk]
      rw [if_neg (by simp at hle ⊢; omega)]
      simp

/-- Witness for C9: a concrete pending fragment (the first byte of a 3-byte
character) satisfying the invariant, and its completion by the next chunk. -/
theorem C9_fragment_invariant_witness :
    (0 < ([227] : List Nat).length ∧
      ([227] : List Nat).length < charBytes ([227] : List Nat).headI) ∧
    processChunk [227] [129, 130] =
      (([227] ++ ([129, 130] : List Nat).take
            (charBytes ([227] : List Nat).headI - ([227] : List Nat).length)) ::
          (processChunk [] (([129, 130] : List Nat).drop
            (charBytes ([227] : List Nat).headI - ([227] : List Nat).length))).1,
       (processChunk [] (([129, 130] : List Nat).drop
            (charBytes ([227] : List Nat).headI - ([227] : List Nat).length))).2) :=
  ⟨C9_fragment_invariant.1 [[227], [129, 130]] [227] (by decide) (by decide),
   C9_fragment_invariant.2 [227] [129, 130] (by decide) (by decide) (by decide) (by decide)⟩

/-! CSV parser claims. -/

/-- C3 counterexample: parsing `a\nb` with `strict = true` and
`allowBareLF = false` raises `Illegal character in unquoted field`
(the bare LF is met in state `IN_FIELD`), not the bare-newline error
`Bare newline is not allowed (use CRLF)` the claim names. -/
theorem C3_counterexample :
    parseCSV ['a', '\n', 'b'] true false false =
      .error "Illegal character in unquoted field" ∧
    parseCSV ['a', '\n', 'b'] true false false ≠
      .error "Bare newline is not allowed (use CRLF)" := by
  constructor <;> decide

/-- C3 (amended): parsing `a\nb` with `strict = true` and
`allowBareLF = false` raises `Illegal character in unquoted field` (the
error raised for a bare newline met inside an unquoted field; the
bare-newline error is only raised in state `START_FIELD`), and parsing the
same input with `allowBareLF = true` returns the two single-field rows
`["a"]` and `["b"]`. -/
theorem C3_strict_bare_lf :
    parseCSV ['a', '\n', 'b'] true false false =
      .error "Illegal character in unquoted field" ∧
    parseCSV ['a', '\n', 'b'] true true false = .ok [["a"], ["b"]] := by
  constructor <;> decide

/-- C5: at end of input in states `START_FIELD`, `IN_FIELD` or
`AFTER_QUOTE`, `parseCSV` appends a final row if and only if there is
pending data (nonempty current field, or a row already containing at least
one field); concretely, `a\r\nb` still yields its final row `["b"]`, and
`a\r\n` yields no extra empty row. -/
theorem C5_eof_flush (strict lf cr : Bool) (rows : List (List String))
    (row : List String) (field : String) :
    (csvLoop strict lf cr .START_FIELD rows row field [] =
      if field ≠ "" ∨ 0 < row.length then .ok (rows ++ [row ++ [field]]) else .ok rows) ∧
    (csvLoop strict lf cr .IN_FIELD rows row field [] =
      if field ≠ "" ∨ 0 < row.length then .ok (rows ++ [row ++ [field]]) else .ok rows) ∧
    (csvLoop strict lf cr .AFTER_QUOTE rows row field [] =
      if field ≠ "" ∨ 0 < row.length then .ok (rows ++ [row ++ [field]]) else .ok rows) ∧
    parseCSV ['a', '\r', '\n', 'b'] true false false = .ok [["a"], ["b"]] ∧
    parseCSV ['a', '\r', '\n'] true false false = .ok [["a"]] :=
  ⟨rfl, rfl, rfl, by decide, by decide⟩

/-- C10: parsing the two-character input `""` (one empty quoted field and
nothing else) returns an empty table with zero rows for every combination
of options: the closing quote leaves the parser in `AFTER_QUOTE` with an
empty field and an empty row, so the end-of-input flush drops the field. -/
theorem C10_lone_empty_quoted_field :
    ∀ strict lf cr : Bool, parseCSV ['"', '"'] strict lf cr = .ok [] := by
  decide

/-- C2 counterexample: in lenient mode with both allow-flags off, the bare
LF of `a\nb` is met in state `IN_FIELD` and is buffered into the field as
literal data — the parse returns the single row `["a\nb"]`, not the two
rows `["a"], ["b"]` that ending the record would produce. -/
theorem C2_counterexample :
    parseCSV ['a', '\n', 'b'] false false false = .ok [["a\nb"]] ∧
    parseCSV ['a', '\n', 'b'] false false false ≠ .ok [["a"], ["b"]] := by
  constructor <;> decide

/-- C2 (amended): in lenient mode a bare LF, or a bare CR not followed by
LF, ends the current record in state `START_FIELD` regardless of the
allow-flags; in states `IN_FIELD` and `AFTER_QUOTE` it ends the record only
when the corresponding allow-flag is on, and otherwise is buffered into the
current field as literal data (`AFTER_QUOTE` additionally transitioning to
`IN_FIELD`). -/
theorem C2_lenient_bare_newline (lf cr : Bool) (rows : List (List String))
    (row : List String) (field : String) (rest : List Char) :
    (csvLoop false lf cr .START_FIELD rows row field ('\n' :: rest) =
      csvLoop false lf cr .START_FIELD (rows ++ [row ++ [field]]) [] "" rest) ∧
    (csvLoop false lf cr .IN_FIELD rows row field ('\n' :: rest) =
      if lf then csvLoop false lf cr .START_FIELD (rows ++ [row ++ [field]]) [] "" rest
      else csvLoop false lf cr .IN_FIELD rows row (field.push '\n') rest) ∧
    (csvLoop false lf cr .AFTER_QUOTE rows row field ('\n' :: rest) =
      if lf then csvLoop false lf cr .START_FIELD (rows ++ [row ++ [field]]) [] "" rest
      else csvLoop false lf cr .IN_FIELD rows row (field.push '\n') rest) ∧
    (rest.head? ≠ some '\n' →
      (csvLoop false lf cr .START_FIELD rows row field ('\r' :: rest) =
        csvLoop false lf cr .START_FIELD (rows ++ [row ++ [field]]) [] "" rest) ∧
      (csvLoop false lf cr .IN_FIELD rows row field ('\r' :: rest) =
        if cr then csvLoop false lf cr .START_FIELD (rows ++ [row ++ [field]]) [] "" rest
        else csvLoop false lf cr .IN_FIELD rows row (field.push '\r') rest) ∧
      (csvLoop false lf cr .AFTER_QUOTE rows row field ('\r' :: rest) =
        if cr then csvLoop false lf cr .START_FIELD (rows ++ [row ++ [field]]) [] "" rest
        else csvLoop false lf cr .IN_FIELD rows row (field.push '\r') rest)) := by
  refine ⟨?_, ?_, ?_, fun h => ⟨?_, ?_, ?_⟩⟩
  · cases lf <;> simp [csvLoop, isControl]
  · cases lf <;> simp [csvLoop, isControl]
  · cases lf <;> simp [csvLoop, isControl]
  all_goals
    cases rest with
    | nil => cases cr <;> simp [csvLoop, isControl]
    | cons c2 r2 =>
      have hc2 : c2 ≠ '\n' := by simpa using h
      cases cr <;> simp [csvLoop, isControl, hc2]

/-- Witness for C2 (amended): a bare CR met in `IN_FIELD` in lenient mode
with `allowBareCR = false` is buffered into the field. -/
theorem C2_lenient_bare_newline_witness :
    csvLoop false false false .IN_FIELD [] [] "a" ['\r'] =
      csvLoop false false false .IN_FIELD [] [] ("a".push '\r') [] := by
  have h := (C2_lenient_bare_newline false false [] [] "a" []).2.2.2 (by decide)
  simpa using h.2.1

lemma foldl_push_eq (s : List Char) : ∀ l : List Char,
    s.foldl String.push ⟨l⟩ = ⟨l ++ s⟩ := by
  induction s with
  | nil => intro l; simp
  | cons c cs ih =>
    intro l
    rw [List.foldl_cons, show (String.mk l).push c = String.mk (l ++ [c]) from rfl, ih]
    simp

lemma inQuoted_no_quote (s : List Char) (hq : '"' ∉ s) :
    ∀ (strict lf cr : Bool) (rows : List (List String)) (row : List String) (field : String),
      csvLoop strict lf cr .IN_QUOTED rows row field s =
        if strict then .error "Unterminated quoted field"
        else .ok (rows ++ [row ++ [s.foldl String.push field]]) := by
  induction s with
  | nil =>
    intro strict lf cr rows row field
    rfl
  | cons c cs ih =>
    intro strict lf cr rows row field
    have hc : c ≠ '"' := fun h => hq (by simp [h])
    have hcs : '"' ∉ cs := fun h => hq (List.mem_cons_of_mem _ h)
    rw [List.foldl_cons,
      show csvLoop strict lf cr .IN_QUOTED rows row field (c :: cs) =
        csvLoop strict lf cr .IN_QUOTED rows row (field.push c) cs by simp [csvLoop, hc]]
    exact ih hcs strict lf cr rows row (field.push c)

/-- C6: if the input ends while the parser is in state `IN_QUOTED` (an
opening quote with no later quote at all), then in strict mode `parseCSV`
raises `Unterminated quoted field`, and in lenient mode it instead returns
the accumulated field content as the last field of a final row. -/
theorem C6_unterminated_quote (s : List Char) (hq : '"' ∉ s) (lf cr : Bool) :
    parseCSV ('"' :: s) true lf cr = .error "Unterminated quoted field" ∧
    parseCSV ('"' :: s) false lf cr = .ok [[String.mk s]] := by
  have h1 : ∀ strict : Bool, parseCSV ('"' :: s) strict lf cr =
      csvLoop strict lf cr .IN_QUOTED [] [] "" s := by
    intro strict
    simp [parseCSV, csvLoop]
  constructor
  · rw [h1 true, inQuoted_no_quote s hq]
    rfl
  · rw [h1 false, inQuoted_no_quote s hq]
    simpa using foldl_push_eq s []

/-- Witness for C6: the input `"ab` (open quote never closed). -/
theorem C6_unterminated_quote_witness :
    parseCSV ['"', 'a', 'b'] true false false = .error "Unterminated quoted field" ∧
    parseCSV ['"', 'a', 'b'] false false false = .ok [[String.mk ['a', 'b']]] :=
  C6_unterminated_quote ['a', 'b'] (by decide) false false

lemma csvLoop_lenient_ok_nil (lf cr : Bool) (state : PState)
    (rows : List (List String)) (row : List String) (field : String) :
    ∃ t, csvLoop false lf cr state rows row field [] = .ok t := by
  cases state <;> simp only [csvLoop, Bool.false_eq_true, if_false] <;>
    first
      | exact ⟨_, rfl⟩
      | (split <;> exact ⟨_, rfl⟩)

lemma csvLoop_lenient_ok_aux :
    ∀ (n : Nat) (input : List Char), input.length ≤ n →
    ∀ (lf cr : Bool) (state : PState) (rows : List (List String))
      (row : List String) (field : String),
      ∃ t, csvLoop false lf cr state rows row field input = .ok t := by
  intro n
  induction n with
  | zero =>
    intro input hl lf cr state rows row field
    have : input = [] := List.eq_nil_of_length_eq_zero (Nat.le_zero.mp hl)
    subst this
    exact csvLoop_lenient_ok_nil lf cr state rows row field
  | succ n ih =>
    intro input hl lf cr state rows row field
    cases input with
    | nil => exact csvLoop_lenient_ok_nil lf cr state rows row field
    | cons ch rest =>
      have hrest : rest.length ≤ n := by simp at hl; omega
      cases state with
      | IN_QUOTED =>
        simp only [csvLoop]
        split <;> exact ih rest hrest _ _ _ _ _ _
      | START_FIELD =>
        by_cases hch : ch = '\r'
        · subst hch
          cases rest with
          | nil =>
            simp [csvLoop]
            repeat' split
            all_goals first
              | exact ⟨_, rfl⟩
              | simp_all
              | exact ih [] hrest _ _ _ _ _ _
          | cons c2 r2 =>
            by_cases hc2 : c2 = '\n'
            · subst hc2
              simp only [csvLoop]
              exact ih r2 (by simp at hrest; omega) _ _ _ _ _ _
            · simp [csvLoop, hc2]
              repeat' split
              all_goals exact ih (c2 :: r2) hrest _ _ _ _ _ _
        · simp [csvLoop, hch]
          repeat' split
          all_goals exact ih rest hrest _ _ _ _ _ _
      | IN_FIELD =>
        by_cases hch : ch = '\r'
        · subst hch
          cases rest with
          | nil =>
            simp [csvLoop]
            repeat' split
            all_goals first
              | exact ⟨_, rfl⟩
              | simp_all
              | exact ih [] hrest _ _ _ _ _ _
          | cons c2 r2 =>
            by_cases hc2 : c2 = '\n'
            · subst hc2
              simp only [csvLoop]
              exact ih r2 (by simp at hrest; omega) _ _ _ _ _ _
            · simp [csvLoop, hc2]
              repeat' split
              all_goals exact ih (c2 :: r2) hrest _ _ _ _ _ _
        · simp [csvLoop, hch]
          repeat' split
          all_goals exact ih rest hrest _ _ _ _ _ _
      | AFTER_QUOTE =>
        by_cases hch : ch = '\r'
        · subst hch
          cases rest with
          | nil =>
            simp [csvLoop]
            repeat' split
            all_goals first
              | exact ⟨_, rfl⟩
              | simp_all
              | exact ih [] hrest _ _ _ _ _ _
          | cons c2 r2 =>
            by_cases hc2 : c2 = '\n'
            · subst hc2
              simp only [csvLoop]
              exact ih r2 (by simp at hrest; omega) _ _ _ _ _ _
            · simp [csvLoop, hc2]
              repeat' split
              all_goals exact ih (c2 :: r2) hrest _ _ _ _ _ _
        · simp [csvLoop, hch]
          repeat' split
          all_goals exact ih rest hrest _ _ _ _ _ _

/-- C8: for every input text and every setting of `allowBareLF` and
`allowBareCR`, `parseCSV` with `strict = false` never raises any parser
error: it always returns a table. -/
theorem C8_lenient_never_errors (input : List Char) (lf cr : Bool) :
    ∃ t, parseCSV input false lf cr = .ok t :=
  csvLoop_lenient_ok_aux input.length input le_rfl lf cr .START_FIELD [] [] ""

lemma csvLoop_no_unexpected_quote_nil (strict lf cr : Bool) (state : PState)
    (rows : List (List String)) (row : List String) (field : String) :
    csvLoop strict lf cr state rows row field [] ≠
      .error "Unexpected quote in unquoted field" := by
  cases state <;> simp only [csvLoop] <;> split <;> first | decide | simp

lemma csvLoop_no_unexpected_quote_aux :
    ∀ (n : Nat) (input : List Char), input.length ≤ n →
    ∀ (strict lf cr : Bool) (state : PState) (rows : List (List String))
      (row : List String) (field : String),
      csvLoop strict lf cr state rows row field input ≠
        .error "Unexpected quote in unquoted field" := by
  intro n
  induction n with
  | zero =>
    intro input hl strict lf cr state rows row field
    have : input = [] := List.eq_nil_of_length_eq_zero (Nat.le_zero.mp hl)
    subst this
    exact csvLoop_no_unexpected_quote_nil strict lf cr state rows row field
  | succ n ih =>
    intro input hl strict lf cr state rows row field
    cases input with
    | nil => exact csvLoop_no_unexpected_quote_nil strict lf cr state rows row field
    | cons ch rest =>
      have hrest : rest.length ≤ n := by simp at hl; omega
      cases state with
      | IN_QUOTED =>
        simp only [csvLoop]
        split <;> exact ih rest hrest _ _ _ _ _ _ _
      | START_FIELD =>
        by_cases hch : ch = '\r'
        · subst hch
          cases rest with
          | nil =>
            simp [csvLoop]
            repeat' split
            all_goals first
              | exact ih [] hrest _ _ _ _ _ _ _
              | decide
              | simp_all
          | cons c2 r2 =>
            by_cases hc2 : c2 = '\n'
            · subst hc2
              simp only [csvLoop]
              exact ih r2 (by simp at hrest; omega) _ _ _ _ _ _ _
            · simp [csvLoop, hc2]
              repeat' split
              all_goals first
                | exact ih (c2 :: r2) hrest _ _ _ _ _ _ _
                | decide
                | simp_all
        · simp [csvLoop, hch]
          repeat' split
          all_goals first
            | exact ih rest hrest _ _ _ _ _ _ _
            | decide
            | simp_all
      | IN_FIELD =>
        by_cases hch : ch = '\r'
        · subst hch
          cases rest with
          | nil =>
            simp [csvLoop]
            repeat' split
            all_goals first
              | exact ih [] hrest _ _ _ _ _ _ _
              | decide
              | simp_all
          | cons c2 r2 =>
            by_cases hc2 : c2 = '\n'
            · subst hc2
              simp only [csvLoop]
              exact ih r2 (by simp at hrest; omega) _ _ _ _ _ _ _
            · simp [csvLoop, hc2]
              repeat' split
              all_goals first
                | exact ih (c2 :: r2) hrest _ _ _ _ _ _ _
                | decide
                | simp_all
        · simp [csvLoop, hch]
          repeat' split
          all_goals first
            | exact ih rest hrest _ _ _ _ _ _ _
            | decide
            | simp_all
      | AFTER_QUOTE =>
        by_cases hch : ch = '\r'
        · subst hch
          cases rest with
          | nil =>
            simp [csvLoop]
            repeat' split
            all_goals first
              | exact ih [] hrest _ _ _ _ _ _ _
              | decide
              | simp_all
          | cons c2 r2 =>
            by_cases hc2 : c2 = '\n'
            · subst hc2
              simp only [csvLoop]
              exact ih r2 (by simp at hrest; omega) _ _ _ _ _ _ _
            · simp [csvLoop, hc2]
              repeat' split
              all_goals first
                | exact ih (c2 :: r2) hrest _ _ _ _ _ _ _
                | decide
                | simp_all
        · simp [csvLoop, hch]
          repeat' split
          all_goals first
            | exact ih rest hrest _ _ _ _ _ _ _
            | decide
            | simp_all

/-- C7 counterexample: in strict mode a quote at the first position of a
field does not raise any error — it opens a quoted field, and `"a"` parses
to the single row `["a"]`. -/
theorem C7_counterexample :
    parseCSV ['"', 'a', '"'] true false false = .ok [["a"]] := by
  decide

/-- C7 (amended): the `Unexpected quote in unquoted field` check of
`START_FIELD` is dead code — a quote at the first position of a field
always transitions to `IN_QUOTED` first, so `parseCSV` never returns this
error for any input and any options. -/
theorem C7_unexpected_quote_unreachable (input : List Char)
    (strict lf cr : Bool) :
    parseCSV input strict lf cr ≠ .error "Unexpected quote in unquoted field" :=
  csvLoop_no_unexpected_quote_aux input.length input le_rfl strict lf cr
    .START_FIELD [] [] ""

/-- Witness for C7 (amended) at a concrete input. -/
theorem C7_unexpected_quote_unreachable_witness :
    parseCSV ['"', 'a', '"'] true false false ≠
      .error "Unexpected quote in unquoted field" :=
  C7_unexpected_quote_unreachable ['"', 'a', '"'] true false false

